import Mathlib

/-!
Verification of the vertical-wobbling (waving flag) background demo.

The development shallowly embeds `src/main.cpp`:

* `data.*`            — the compile-time constants of namespace `data`;
* `VWD._displacement` — `flags_bg::_displacement`, parametrised by the external
  sine lookup table `bn::lut_sin` (a library function outside this repository,
  specified only through its interface: a fixed-point sine over a 2048-unit
  circle); the fixed-point value is modelled as a rational number and the
  fixed-point rounding as `round`;
* `VWD.update`, `VWD._transfer`, `VWD.set_bg_item`, `VWD.create` — the state
  operations of class `flags_bg`.  Tile VRAM is modelled at the granularity the
  code itself copies at: one `uint64_t` row of eight bytes.  A `bn::tile`
  (one 4bpp tile, 32 bytes) is four such rows, one 8bpp tile is eight.  The
  VRAM is a function from row addresses to abstract row contents.

Addresses mirror the pointer arithmetic of the source exactly: the slot for
parity `s` starts at `bn::tile` offset `2 * (flag_tiles_needed * s + 1)`,
i.e. at row `slotBaseRow s`; the column strip for column `x` starts
`2 * (flag_height_tiles + 2) * x` `bn::tile`s, i.e. `colRow x` rows, further in.
-/

namespace data

def flag_width_pixels : ℤ := 192
def flag_height_pixels : ℤ := 128
def flag_width_tiles : ℤ := flag_width_pixels / 8
def flag_height_tiles : ℤ := flag_height_pixels / 8
def flag_offset_x : ℤ := (32 - flag_width_tiles) / 2
def flag_offset_y : ℤ := (32 - flag_height_tiles) / 2
def flag_tiles_needed : ℤ := flag_width_tiles * (flag_height_tiles + 2)
def wave_vertical_amplitude : ℤ := 4
def wave_horizontal_period : ℤ := 128
def wave_horizontal_multiplier : ℤ := 2048 / wave_horizontal_period

end data

namespace VWD

/-- `flags_bg::_displacement`: `a = multiplier * (x - t)`, then
`(amplitude * bn::lut_sin(a & 2047)).round_integer()`.  The lookup table is the
external collaborator `bn::lut_sin`, passed as the parameter `lut`. -/
def _displacement (lut : ℤ → ℚ) (x t : ℤ) : ℤ :=
  round ((data.wave_vertical_amplitude : ℚ) *
    lut (Int.land (data.wave_horizontal_multiplier * (x - t)) 2047))

/-- Spec interface for the external sine lookup: its values are bounded by one
in absolute value (it is a sine normalised to a 2048-unit circle). -/
def LutBounded (lut : ℤ → ℚ) : Prop :=
  ∀ a : ℤ, |lut a| ≤ 1

/-- Spec interface for the external sine lookup: between two angles sixteen
units apart (the per-tick angle step used by the code) a sine over a 2048-unit
circle moves by at most `16 * 2π / 2048 = π / 64 ≤ 1 / 16`.  The lemma
`sin_lut_step_bound` below shows that the ideal sine satisfies this. -/
def LutStep (lut : ℤ → ℚ) : Prop :=
  ∀ a : ℤ, |lut ((a + 16) % 2048) - lut (a % 2048)| ≤ 1 / 16

/-! ### The VRAM model

One `uint64_t` row is eight bytes; a `bn::tile` (4bpp, 32 bytes) is
`tile_rows = 4` rows; an 8bpp tile is two `bn::tile`s, eight rows.  VRAM is a
function from row addresses to abstract row contents. -/

/-- Rows per `bn::tile`: 32 bytes / 8 bytes. -/
def tile_rows : ℤ := 32 / 8

/-- Row address of the start of frame-buffer slot `s`: the code's
`tiles_base_ptr + 2 * (flag_tiles_needed * s + 1)` in `bn::tile` units. -/
def slotBaseRow (s : ℤ) : ℤ := tile_rows * (2 * (data.flag_tiles_needed * s + 1))

/-- Row offset of column `x` inside a slot: the code's
`2 * (flag_height_tiles + 2) * x` in `bn::tile` units. -/
def colRow (x : ℤ) : ℤ := tile_rows * (2 * (data.flag_height_tiles + 2) * x)

/-- Rows in one column strip: `flag_height_tiles + 2` 8bpp tiles. -/
def stripRows : ℤ := tile_rows * (2 * (data.flag_height_tiles + 2))

/-- Rows in one slot: `flag_tiles_needed` 8bpp tiles. -/
def slotRows : ℤ := tile_rows * (2 * data.flag_tiles_needed)

/-- The copy-size constants of `flags_bg::update`. -/
def tiles_to_copy : ℤ := data.flag_height_tiles + 2

/-- `2 * sizeof(bn::tile) * tiles_to_copy / sizeof(uint32_t)`. -/
def words_to_copy : ℤ := 2 * 32 * tiles_to_copy / 4

/-- `(words_to_copy * sizeof(uint32_t)) / sizeof(bn::tile)`. -/
def real_tiles_to_copy : ℤ := words_to_copy * 4 / 32

/-- Rows copied per column by `update`: `real_tiles_to_copy` `bn::tile`s. -/
def copyRowsCount : ℤ := tile_rows * real_tiles_to_copy

/-- Overwrite one VRAM row. -/
def writeRow (v : ℤ → ℤ) (r val : ℤ) : ℤ → ℤ :=
  fun q => if q = r then val else v q

/-- `bn::memory::copy` of `n` eight-byte rows from address `a` to address `b`,
ascending, reading the memory as it is at each step (a forward `memcpy`). -/
def copyRows (v : ℤ → ℤ) (a b : ℤ) : ℕ → (ℤ → ℤ)
  | 0 => v
  | n + 1 =>
    writeRow (copyRows v a b n) (b + n) (copyRows v a b n (a + n))

/-- An image asset (`bn::regular_bg_item`): its row-major map of tile indices,
its tile pixel rows (`tileRow i j` is row `j` of 8bpp tile `i`), and its
palette. -/
structure Image where
  map : ℤ → ℤ
  tileRow : ℤ → ℤ → ℤ
  palette : ℤ

/-- The state of a `flags_bg` object: the active image reference, the
background's tile VRAM and palette, and the frame counter. -/
structure FlagsBg where
  _bg_item : Image
  vram : ℤ → ℤ
  palette : ℤ
  _current_frame : ℤ

/-- The per-column copy offset of `flags_bg::update`:
`_displacement(8 * x, current_frame + 1) - _displacement(8 * x, current_frame)`. -/
def d_disp (lut : ℤ → ℚ) (current_frame x : ℤ) : ℤ :=
  _displacement lut (8 * x) (current_frame + 1) - _displacement lut (8 * x) current_frame

/-- The column loop of `flags_bg::update`: processes columns `0, …, n - 1`
in ascending order; column `x` copies `copyRowsCount` rows from the source
column strip to the destination column strip shifted by `d_disp` rows. -/
def updateCols (lut : ℤ → ℚ) (t srcPtr dstPtr : ℤ) (v : ℤ → ℤ) : ℕ → (ℤ → ℤ)
  | 0 => v
  | n + 1 =>
    copyRows (updateCols lut t srcPtr dstPtr v n)
      (srcPtr + colRow n) (dstPtr + colRow n + d_disp lut t n) copyRowsCount.toNat

/-- `flags_bg::update`: pick source and destination slot by frame parity,
copy every column with its per-column displacement delta, and increment the
frame counter. -/
def update (lut : ℤ → ℚ) (s : FlagsBg) : FlagsBg :=
  let current_frame := s._current_frame
  let src := Int.land current_frame 1
  let dst := Int.xor src 1
  { s with
    vram := updateCols lut current_frame (slotBaseRow src) (slotBaseRow dst)
      s.vram data.flag_width_tiles.toNat
    _current_frame := current_frame + 1 }

/-- Modelled from the spec: `arm::copy_vertical_tile_strip_8bpp`, whose
definition (an IWRAM assembly routine) is not part of `src/`.  Per spec §4.2
it gathers `num_tiles` 8bpp tiles of one image column: tile `i` of the strip
is the image tile indexed by the map cell at `mapBase + 32 * i` (the map is
row-major with stride 32), and its eight rows are written contiguously at
`dest + 8 * i`.  Source data is the immutable image, so the write is a pure
region update. -/
def copy_vertical_tile_strip_8bpp (tiles : ℤ → ℤ → ℤ) (cells : ℤ → ℤ)
    (mapBase dest num_tiles : ℤ) (v : ℤ → ℤ) : ℤ → ℤ :=
  fun r =>
    if dest ≤ r ∧ r < dest + 8 * num_tiles then
      tiles (cells (mapBase + 32 * ((r - dest) / 8))) ((r - dest) % 8)
    else v r

/-- The column loop of `flags_bg::_transfer`: column `x`'s strip is written at
`tile_ptr + 2` `bn::tile`s (skipping the top padding tile) plus
`_displacement(8 * x, current_frame)` rows. -/
def transferCols (lut : ℤ → ℚ) (f : ℤ) (img : Image) (destBase : ℤ)
    (v : ℤ → ℤ) : ℕ → (ℤ → ℤ)
  | 0 => v
  | n + 1 =>
    copy_vertical_tile_strip_8bpp img.tileRow img.map
      (32 * data.flag_offset_y + data.flag_offset_x + n)
      (destBase + colRow n + 2 * tile_rows + _displacement lut (8 * n) f)
      data.flag_height_tiles
      (transferCols lut f img destBase v n)

/-- `flags_bg::_transfer`: write the active image's column strips into the
slot selected by `current_frame & 1`, then set the palette to the image's
colors. -/
def _transfer (lut : ℤ → ℚ) (s : FlagsBg) : FlagsBg :=
  let dst := Int.land s._current_frame 1
  { s with
    vram := transferCols lut s._current_frame s._bg_item (slotBaseRow dst)
      s.vram data.flag_width_tiles.toNat
    palette := s._bg_item.palette }

/-- `flags_bg::set_bg_item`: store the new image reference, then `_transfer`. -/
def set_bg_item (lut : ℤ → ℚ) (bg_item : Image) (s : FlagsBg) : FlagsBg :=
  _transfer lut { s with _bg_item := bg_item }

/-- `flags_bg::create` followed by the private constructor: allocate (the
initial VRAM contents `v0` are arbitrary), create the palette from the image,
start the frame counter at zero, and `_transfer`. -/
def create (lut : ℤ → ℚ) (bg_item : Image) (v0 : ℤ → ℤ) : FlagsBg :=
  _transfer lut
    { _bg_item := bg_item, vram := v0, palette := bg_item.palette,
      _current_frame := 0 }

/-- The all-zero lookup table, used to witness the spec-interface
hypotheses. -/
def lut0 : ℤ → ℚ := fun _ => 0

/-- Integer core of the tent-wave lookup table: a triangle wave of period 2048
with peak at angle 0 and trough at angle 1024, values in `[-512, 512]`. -/
def tentZ (a : ℤ) : ℤ :=
  if a % 2048 ≤ 1024 then 1024 - a % 2048 - 512 else a % 2048 - 1024 - 512

/-- A concrete lookup table within the spec's sine interface (bounded by one,
step at most `1/16` per sixteen angle units): a triangle wave.  Used to
exhibit the boundary behaviour of `update` and `_transfer`. -/
def lut1 : ℤ → ℚ := fun a => (tentZ a : ℚ) / 512

/-- A concrete image with distinguishable content: map cell `p` holds tile
index `p`, and row `j` of tile `i` holds the marker `1000000 + 1000 * i + j`. -/
def img0 : Image :=
  { map := fun p => p, tileRow := fun i j => 1000000 + 1000 * i + j, palette := 5 }

/-- VRAM whose every row holds its own address as content. -/
def vId : ℤ → ℤ := fun r => r

/-- A concrete state at frame 0. -/
def s0 : FlagsBg :=
  { _bg_item := img0, vram := vId, palette := 0, _current_frame := 0 }

/-- A concrete state at frame 4. -/
def s4 : FlagsBg :=
  { _bg_item := img0, vram := vId, palette := 0, _current_frame := 4 }

/-- An external driver operation: one tick (`update`) or an image swap
(`set_bg_item`). -/
inductive Op
  | upd : Op
  | setImg : Image → Op

/-- Whether an operation is a tick. -/
def Op.isUpd : Op → Bool
  | .upd => true
  | .setImg _ => false

/-- Run one driver operation on a `flags_bg` state. -/
def runOp (lut : ℤ → ℚ) (s : FlagsBg) : Op → FlagsBg
  | .upd => update lut s
  | .setImg img => set_bg_item lut img s

/-- The ideal normalised sine satisfies the step bound assumed in `LutStep`:
angles sixteen units apart on a 2048-unit circle give sine values at most
`1 / 16` apart, also across the wrap-around, because real sine is 1-Lipschitz
and `2π`-periodic. -/
theorem sin_lut_step_bound (a : ℤ) :
    |Real.sin (((a + 16) % 2048 : ℤ) * (2 * Real.pi / 2048)) -
      Real.sin ((a % 2048 : ℤ) * (2 * Real.pi / 2048))| ≤ 1 / 16 := by
  have hper : ∀ b : ℤ, Real.sin (((b % 2048 : ℤ) : ℝ) * (2 * Real.pi / 2048)) =
      Real.sin ((b : ℝ) * (2 * Real.pi / 2048)) := by
    intro b
    have hb : ((b % 2048 : ℤ) : ℝ) = (b : ℝ) - 2048 * ((b / 2048 : ℤ) : ℝ) := by
      have h : (b % 2048 : ℤ) = b - 2048 * (b / 2048) := by
        have := Int.ediv_add_emod b 2048
        omega
      exact_mod_cast congrArg (fun z : ℤ => (z : ℝ)) h
    rw [hb]
    have harg : ((b : ℝ) - 2048 * ((b / 2048 : ℤ) : ℝ)) * (2 * Real.pi / 2048) =
        (b : ℝ) * (2 * Real.pi / 2048) + ((-(b / 2048) : ℤ) : ℝ) * (2 * Real.pi) := by
      push_cast
      ring
    rw [harg, Real.sin_add_int_mul_two_pi]
  rw [hper (a + 16), hper a]
  have hlip : ∀ u v : ℝ, |Real.sin u - Real.sin v| ≤ |u - v| := by
    intro u v
    rw [Real.sin_sub_sin]
    have h1 : |Real.sin ((u - v) / 2)| ≤ |(u - v) / 2| := Real.abs_sin_le_abs
    have h2 := Real.abs_cos_le_one ((u + v) / 2)
    have h3 : |2 * Real.sin ((u - v) / 2) * Real.cos ((u + v) / 2)| =
        2 * |Real.sin ((u - v) / 2)| * |Real.cos ((u + v) / 2)| := by
      rw [abs_mul, abs_mul]
      norm_num
    rw [h3]
    have h4 : |(u - v) / 2| = |u - v| / 2 := by
      rw [abs_div]
      norm_num
    rw [h4] at h1
    nlinarith [abs_nonneg (Real.sin ((u - v) / 2)), abs_nonneg (u - v)]
  have hbound := hlip (((a + 16 : ℤ) : ℝ) * (2 * Real.pi / 2048))
    ((a : ℝ) * (2 * Real.pi / 2048))
  have harg2 : ((a + 16 : ℤ) : ℝ) * (2 * Real.pi / 2048) -
      (a : ℝ) * (2 * Real.pi / 2048) = Real.pi / 64 := by
    push_cast
    ring
  rw [harg2] at hbound
  have hpos : (0 : ℝ) ≤ Real.pi / 64 := by
    have := Real.pi_pos
    linarith
  rw [abs_of_nonneg hpos] at hbound
  have hpi : Real.pi / 64 ≤ 1 / 16 := by
    have := Real.pi_le_four
    linarith
  exact hbound.trans hpi

/-- For `m < 2^w`, clearing the bits of `m` from the all-ones mask `2^w - 1`
is subtraction. -/
theorem ldiff_two_pow_sub_one :
    ∀ (w m : ℕ), m < 2 ^ w → Nat.ldiff (2 ^ w - 1) m = 2 ^ w - 1 - m := by
  intro w
  induction w with
  | zero =>
    intro m hm
    have hm0 : m = 0 := by omega
    subst hm0
    apply Nat.eq_of_testBit_eq
    intro i
    rw [Nat.testBit_ldiff]
    norm_num
  | succ w ih =>
    intro m hm
    have h2 : (2 : ℕ) ^ (w + 1) = 2 * 2 ^ w := by rw [pow_succ]; ring
    have h1 : (1 : ℕ) ≤ 2 ^ w := Nat.one_le_two_pow
    have hsum := Nat.bodd_add_div2 m
    have hmask : (2 ^ (w + 1) - 1 : ℕ) = Nat.bit true (2 ^ w - 1) := by
      rw [Nat.bit_val, Bool.toNat_true]
      omega
    have hmdec : Nat.bit m.bodd m.div2 = m := Nat.bit_decomp m
    have hdiv : m.div2 < 2 ^ w := by
      cases hb : m.bodd <;> rw [hb] at hsum <;>
        simp only [Bool.toNat_false, Bool.toNat_true] at hsum <;> omega
    calc Nat.ldiff (2 ^ (w + 1) - 1) m
        = Nat.ldiff (Nat.bit true (2 ^ w - 1)) (Nat.bit m.bodd m.div2) := by
          rw [hmask, hmdec]
      _ = Nat.bit (true && !m.bodd) (Nat.ldiff (2 ^ w - 1) m.div2) := by
          rw [Nat.ldiff_bit]
      _ = Nat.bit (!m.bodd) (2 ^ w - 1 - m.div2) := by
          rw [Bool.true_and, ih m.div2 hdiv]
      _ = 2 ^ (w + 1) - 1 - m := by
          rw [Nat.bit_val]
          cases hb : m.bodd <;> rw [hb] at hsum <;>
            simp only [Bool.not_false, Bool.not_true, Bool.toNat_false,
              Bool.toNat_true] at hsum ⊢ <;> omega

/-- Clearing high bits of the subtrahend does not change a masked clear. -/
theorem ldiff_two_pow_sub_one_mod (w n : ℕ) :
    Nat.ldiff (2 ^ w - 1) n = Nat.ldiff (2 ^ w - 1) (n % 2 ^ w) := by
  apply Nat.eq_of_testBit_eq
  intro i
  rw [Nat.testBit_ldiff, Nat.testBit_ldiff, Nat.testBit_two_pow_sub_one,
    Nat.testBit_mod_two_pow]
  by_cases h : i < w <;> simp [h]

/-- Bitwise AND with the all-ones mask `2^w - 1` computes the Euclidean
remainder modulo `2^w`, also for negative integers (two's-complement
semantics), exactly as the C `&` on a two's-complement `int` does. -/
theorem land_two_pow_sub_one_eq_emod (w : ℕ) (a : ℤ) :
    Int.land a ((2 : ℤ) ^ w - 1) = a % (2 : ℤ) ^ w := by
  have h1n : (1 : ℕ) ≤ 2 ^ w := Nat.one_le_two_pow
  have hpow : ((2 ^ w : ℕ) : ℤ) = (2 : ℤ) ^ w := by push_cast; ring
  have hcast : ((2 : ℤ) ^ w - 1) = Int.ofNat (2 ^ w - 1) := by
    simp only [Int.ofNat_eq_coe]
    rw [Nat.cast_sub h1n, Nat.cast_one, hpow]
  cases a with
  | ofNat n =>
    rw [hcast]
    have h1 : Int.land (Int.ofNat n) (Int.ofNat (2 ^ w - 1)) =
        Int.ofNat (n &&& (2 ^ w - 1)) := rfl
    rw [h1, Nat.and_pow_two_sub_one_eq_mod]
    simp only [Int.ofNat_eq_coe]
    rw [Int.ofNat_emod, hpow]
  | negSucc n =>
    have hrange : n % 2 ^ w < 2 ^ w := Nat.mod_lt n (Nat.pos_pow_of_pos w (by norm_num))
    rw [hcast]
    have h1 : Int.land (Int.negSucc n) (Int.ofNat (2 ^ w - 1)) =
        Int.ofNat (Nat.ldiff (2 ^ w - 1) n) := rfl
    rw [h1, ldiff_two_pow_sub_one_mod, ldiff_two_pow_sub_one w (n % 2 ^ w) hrange]
    have hsub : ((2 ^ w - 1 - n % 2 ^ w : ℕ) : ℤ) =
        (2 : ℤ) ^ w - 1 - ((n % 2 ^ w : ℕ) : ℤ) := by
      have hle : n % 2 ^ w ≤ 2 ^ w - 1 := by omega
      rw [Nat.cast_sub hle, Nat.cast_sub h1n, Nat.cast_one, hpow]
    have hdm : (n : ℤ) = (2 : ℤ) ^ w * ((n / 2 ^ w : ℕ) : ℤ) + ((n % 2 ^ w : ℕ) : ℤ) := by
      rw [← hpow]
      exact_mod_cast (Nat.div_add_mod n (2 ^ w)).symm
    have hmodnn : (0 : ℤ) ≤ ((n % 2 ^ w : ℕ) : ℤ) := Int.natCast_nonneg _
    have hdecomp : Int.negSucc n =
        ((2 ^ w - 1 - n % 2 ^ w : ℕ) : ℤ) +
          (2 : ℤ) ^ w * (-(1 : ℤ) - ((n / 2 ^ w : ℕ) : ℤ)) := by
      rw [Int.negSucc_eq, hsub]
      linarith
    rw [hdecomp, Int.add_mul_emod_self_left, Int.emod_eq_of_lt]
    · simp only [Int.ofNat_eq_coe]
    · rw [hsub]
      linarith
    · rw [hsub]
      have hp : (0 : ℤ) < (2 : ℤ) ^ w := by positivity
      linarith

/-- The source's `a & 2047` is reduction modulo 2048. -/
theorem land_2047_eq_emod (a : ℤ) : Int.land a 2047 = a % 2048 := by
  have := land_two_pow_sub_one_eq_emod 11 a
  norm_num at this
  exact this

/-- The source's `current_frame & 1` is reduction modulo 2. -/
theorem land_1_eq_emod (a : ℤ) : Int.land a 1 = a % 2 := by
  have := land_two_pow_sub_one_eq_emod 1 a
  norm_num at this
  exact this

/-! ### Numeric values of the geometry constants -/

theorem flag_width_tiles_eq : data.flag_width_tiles = 24 := by decide

theorem flag_height_tiles_eq : data.flag_height_tiles = 16 := by decide

theorem flag_width_tiles_toNat : data.flag_width_tiles.toNat = 24 := by decide

theorem colRow_eq (x : ℤ) : colRow x = 144 * x := by
  simp only [colRow, tile_rows, data.flag_height_tiles, data.flag_height_pixels]
  norm_num
  ring

theorem slotBaseRow_eq (s : ℤ) : slotBaseRow s = 3456 * s + 8 := by
  simp only [slotBaseRow, tile_rows, data.flag_tiles_needed, data.flag_width_tiles,
    data.flag_height_tiles, data.flag_width_pixels, data.flag_height_pixels]
  norm_num
  ring

theorem stripRows_eq : stripRows = 144 := by decide

theorem slotRows_eq : slotRows = 3456 := by decide

theorem copyRowsCount_eq : copyRowsCount = 144 := by decide

theorem copyRowsCount_toNat : copyRowsCount.toNat = 144 := by decide

theorem tile_rows_eq : tile_rows = 4 := by decide

theorem flag_offset_x_eq : data.flag_offset_x = 4 := by decide

theorem flag_offset_y_eq : data.flag_offset_y = 8 := by decide

theorem multiplier_eq : data.wave_horizontal_multiplier = 16 := by decide

theorem amplitude_eq : data.wave_vertical_amplitude = 4 := by decide

/-! ### Behaviour of the row copy -/

/-- Rows outside the destination window are untouched by a copy. -/
theorem copyRows_outside (v : ℤ → ℤ) (a b : ℤ) (n : ℕ) (r : ℤ)
    (h : r < b ∨ b + n ≤ r) : copyRows v a b n r = v r := by
  induction n with
  | zero => rfl
  | succ n ih =>
    have hcast : ((n + 1 : ℕ) : ℤ) = (n : ℤ) + 1 := by push_cast; ring
    have hne : r ≠ b + (n : ℤ) := by
      rw [hcast] at h
      omega
    simp only [copyRows, writeRow]
    rw [if_neg hne]
    apply ih
    rw [hcast] at h
    omega

/-- Inside the destination window, a copy with disjoint source and destination
regions installs the source data. -/
theorem copyRows_inside (v : ℤ → ℤ) (a b : ℤ) (n : ℕ) (r : ℤ)
    (hdisj : a + n ≤ b ∨ b + n ≤ a)
    (h1 : b ≤ r) (h2 : r < b + n) : copyRows v a b n r = v (a + (r - b)) := by
  induction n with
  | zero =>
    exfalso
    simp only [Nat.cast_zero, add_zero] at h2
    omega
  | succ n ih =>
    have hcast : ((n + 1 : ℕ) : ℤ) = (n : ℤ) + 1 := by push_cast; ring
    by_cases hr : r = b + (n : ℤ)
    · simp only [copyRows, writeRow]
      rw [if_pos hr]
      rw [copyRows_outside v a b n (a + (n : ℤ)) (by rw [hcast] at hdisj; omega)]
      have : a + (r - b) = a + (n : ℤ) := by omega
      rw [this]
    · simp only [copyRows, writeRow]
      rw [if_neg hr]
      exact ih (by rw [hcast] at hdisj; omega) (by rw [hcast] at h2; omega)

/-! ### Behaviour of the update column loop -/

/-- A row not in any processed column's destination window is untouched by the
update loop. -/
theorem updateCols_outside (lut : ℤ → ℚ) (t srcPtr dstPtr : ℤ) (v : ℤ → ℤ)
    (n : ℕ) (r : ℤ)
    (h : ∀ x : ℕ, x < n →
      r < dstPtr + colRow x + d_disp lut t x ∨
      dstPtr + colRow x + d_disp lut t x + copyRowsCount ≤ r) :
    updateCols lut t srcPtr dstPtr v n r = v r := by
  induction n with
  | zero => rfl
  | succ n ih =>
    simp only [updateCols]
    rw [copyRows_outside]
    · exact ih fun x hx => h x (Nat.lt_succ_of_lt hx)
    · have := h n (Nat.lt_succ_self n)
      rw [copyRowsCount_toNat] at *
      rw [copyRowsCount_eq] at this
      push_cast
      omega

/-- If column `x`'s destination window contains row `r`, no later processed
column's window does, and column `x`'s source and destination regions are
disjoint, then the update loop leaves at `r` the value column `x` copied there:
the corresponding source-strip row as it was when column `x` was processed. -/
theorem updateCols_value (lut : ℤ → ℚ) (t srcPtr dstPtr : ℤ) (v : ℤ → ℤ)
    (n x : ℕ) (r : ℤ)
    (hxn : x < n)
    (hin1 : dstPtr + colRow x + d_disp lut t x ≤ r)
    (hin2 : r < dstPtr + colRow x + d_disp lut t x + copyRowsCount)
    (hlater : ∀ y : ℕ, x < y → y < n →
      r < dstPtr + colRow y + d_disp lut t y ∨
      dstPtr + colRow y + d_disp lut t y + copyRowsCount ≤ r)
    (hdisj : srcPtr + colRow x + copyRowsCount ≤ dstPtr + colRow x + d_disp lut t x ∨
      dstPtr + colRow x + d_disp lut t x + copyRowsCount ≤ srcPtr + colRow x) :
    updateCols lut t srcPtr dstPtr v n r =
      updateCols lut t srcPtr dstPtr v x
        (srcPtr + colRow x + (r - (dstPtr + colRow x + d_disp lut t x))) := by
  induction n with
  | zero => omega
  | succ n ih =>
    by_cases hx : x = n
    · subst hx
      simp only [updateCols]
      rw [copyRows_inside _ _ _ _ r
        (by rw [copyRowsCount_toNat]; rw [copyRowsCount_eq] at hdisj; push_cast; omega)
        hin1
        (by rw [copyRowsCount_toNat]; rw [copyRowsCount_eq] at hin2; push_cast; omega)]
    · have hxn' : x < n := by omega
      simp only [updateCols]
      rw [copyRows_outside]
      · exact ih hxn' fun y hy hyn => hlater y hy (Nat.lt_succ_of_lt hyn)
      · have := hlater n (by omega) (Nat.lt_succ_self n)
        rw [copyRowsCount_toNat]
        rw [copyRowsCount_eq] at this
        push_cast
        omega

/-! ### Bounds on the displacement -/

/-- An integer whose rational cast is under `k + 1` in absolute value is at
most `k` in absolute value. -/
theorem int_abs_le_of_cast_lt {z k : ℤ} (h : |(z : ℚ)| < (k : ℚ) + 1) :
    |z| ≤ k := by
  by_contra hcon
  push_neg at hcon
  have h1 : (k : ℚ) + 1 ≤ |(z : ℚ)| := by
    rw [← Int.cast_abs]
    exact_mod_cast hcon
  linarith

/-- Under the spec's bound on the sine lookup, the displacement is at most
the amplitude in absolute value. -/
theorem abs_displacement_le (lut : ℤ → ℚ) (hb : LutBounded lut) (x t : ℤ) :
    |_displacement lut x t| ≤ 4 := by
  unfold _displacement
  set q : ℚ := (data.wave_vertical_amplitude : ℚ) *
    lut (Int.land (data.wave_horizontal_multiplier * (x - t)) 2047) with hq
  have hql : |q| ≤ 4 := by
    rw [hq, abs_mul]
    have h1 := hb (Int.land (data.wave_horizontal_multiplier * (x - t)) 2047)
    have h2 : |(data.wave_vertical_amplitude : ℚ)| = 4 := by
      rw [amplitude_eq]
      norm_num
    rw [h2]
    nlinarith [abs_nonneg (lut (Int.land (data.wave_horizontal_multiplier * (x - t)) 2047))]
  have hrq := abs_sub_round q
  apply int_abs_le_of_cast_lt
  have : |(round q : ℚ)| ≤ |q| + |q - round q| := by
    have habs := abs_sub_abs_le_abs_sub q (q - round q)
    have : q - (q - round q) = (round q : ℚ) := by ring
    calc |(round q : ℚ)| = |q - (q - round q)| := by rw [this]
      _ ≤ |q| + |q - round q| := abs_sub _ _
  push_cast
  calc |(round q : ℚ)| ≤ |q| + |q - round q| := this
    _ ≤ 4 + 1 / 2 := by linarith
    _ < 4 + 1 := by norm_num

/-- Under the spec's step bound on the sine lookup, the per-tick change of the
displacement of any column is at most one row. -/
theorem abs_d_disp_le_one (lut : ℤ → ℚ) (hs : LutStep lut) (t x : ℤ) :
    |d_disp lut t x| ≤ 1 := by
  unfold d_disp _displacement
  rw [multiplier_eq, amplitude_eq]
  have hA : Int.land (16 * (8 * x - (t + 1))) 2047 =
      (16 * (8 * x - t) - 16) % 2048 := by
    rw [land_2047_eq_emod]
    congr 1
    ring
  have hB : Int.land (16 * (8 * x - t)) 2047 =
      ((16 * (8 * x - t) - 16) + 16) % 2048 := by
    rw [land_2047_eq_emod]
    congr 1
    ring
  rw [hA, hB]
  set a : ℤ := 16 * (8 * x - t) - 16 with ha
  set p : ℚ := (4 : ℤ) * lut (a % 2048) with hp
  set q : ℚ := (4 : ℤ) * lut ((a + 16) % 2048) with hqq
  have hstep := hs a
  have hpq : |q - p| ≤ 1 / 4 := by
    rw [hp, hqq]
    have : ((4 : ℤ) : ℚ) * lut ((a + 16) % 2048) - ((4 : ℤ) : ℚ) * lut (a % 2048) =
        4 * (lut ((a + 16) % 2048) - lut (a % 2048)) := by
      push_cast
      ring
    rw [this, abs_mul]
    norm_num
    linarith
  have h1 := abs_sub_round p
  have h2 := abs_sub_round q
  apply int_abs_le_of_cast_lt
  have hval : |(round p : ℚ) - (round q : ℚ)| ≤ 3 / 2 := by
    have : (round p : ℚ) - (round q : ℚ) =
        -(p - round p) + (p - q) + (q - round q) := by ring
    rw [this]
    have hmq : |(-(p - round p) + (p - q))| ≤ |p - round p| + |p - q| := by
      calc |(-(p - round p) + (p - q))| ≤ |(-(p - round p))| + |p - q| := abs_add _ _
        _ = |p - round p| + |p - q| := by rw [abs_neg]
    calc |(-(p - round p) + (p - q)) + (q - round q)|
        ≤ |(-(p - round p) + (p - q))| + |q - round q| := abs_add _ _
      _ ≤ |p - round p| + |p - q| + |q - round q| := by linarith
      _ ≤ 1 / 2 + 1 / 4 + 1 / 2 := by
          have hqp : |p - q| ≤ 1 / 4 := by
            rw [← abs_neg]
            have : -(p - q) = q - p := by ring
            rw [this]
            exact hpq
          linarith
      _ ≤ 3 / 2 := by norm_num
  push_cast
  calc |(round p : ℚ) - (round q : ℚ)| ≤ 3 / 2 := hval
    _ < 1 + 1 := by norm_num

/-! ### Claims about the displacement function -/

/-- C2: for all integers `x` and `t`, `displacement(x, t)` is
`round(amplitude * sin_lookup(a))` with `a = (multiplier * (x - t)) & 2047`,
where `multiplier = 2048 / 128 = 16` and `amplitude = 4`; equivalently (by
two's-complement mask semantics) with `a = (16 * (x - t)) mod 2048`.  Purity
and determinism hold by construction: `_displacement` is a mathematical
function of `lut`, `x` and `t` alone. -/
theorem C2_displacement_formula : ∀ (lut : ℤ → ℚ) (x t : ℤ),
    _displacement lut x t =
      round ((data.wave_vertical_amplitude : ℚ) *
        lut (Int.land (data.wave_horizontal_multiplier * (x - t)) 2047))
    ∧ _displacement lut x t = round ((4 : ℚ) * lut ((16 * (x - t)) % 2048))
    ∧ data.wave_horizontal_multiplier = 2048 / 128
    ∧ data.wave_vertical_amplitude = 4 := by
  intro lut x t
  refine ⟨rfl, ?_, by decide, by decide⟩
  unfold _displacement
  rw [multiplier_eq, amplitude_eq, land_2047_eq_emod]
  norm_num

/-- C5: for all integers `x` and `t`, the displacement is at most the fixed
vertical amplitude, four pixels, in absolute value.  The hypothesis is the
spec's interface for the external sine lookup: a sine is bounded by one. -/
theorem C5_displacement_bounded (lut : ℤ → ℚ) (hb : LutBounded lut) :
    ∀ x t : ℤ, |_displacement lut x t| ≤ 4 :=
  fun x t => abs_displacement_le lut hb x t

/-- Witness for C5 at the zero lookup table and `x = 3`, `t = 5`. -/
theorem C5_witness : LutBounded lut0 ∧ |_displacement lut0 3 5| ≤ 4 :=
  ⟨fun _ => by norm_num [lut0],
    C5_displacement_bounded lut0 (fun _ => by norm_num [lut0]) 3 5⟩

/-- C6: for all integers `x` and `t` — also when `x - t` is negative — the
displacement is periodic in `t` with period `128 = 2048 / multiplier` ticks,
because the angle is reduced with modulo semantics (`& 2047`), not with
truncating division. -/
theorem C6_displacement_periodic : ∀ (lut : ℤ → ℚ) (x t : ℤ),
    _displacement lut x t = _displacement lut x (t + 128)
    ∧ 2048 / data.wave_horizontal_multiplier = 128 := by
  intro lut x t
  refine ⟨?_, by decide⟩
  unfold _displacement
  rw [land_2047_eq_emod, land_2047_eq_emod]
  have harg : data.wave_horizontal_multiplier * (x - (t + 128)) =
      data.wave_horizontal_multiplier * (x - t) - 2048 := by
    rw [multiplier_eq]
    ring
  rw [harg]
  have : (data.wave_horizontal_multiplier * (x - t) - 2048) % 2048 =
      data.wave_horizontal_multiplier * (x - t) % 2048 := by
    omega
  rw [this]

/-- C10: under the spec's step bound on the sine lookup, the per-tick shift
`|displacement(8x, t+1) - displacement(8x, t)|` applied by `update()` is at
most one row, so the 144-row strip copy of column `x` writes only rows in
`[column start - 1, column start + stripRows + 1)` — never more than one
eight-byte row outside the destination column's own strip. -/
theorem C10_delta_at_most_one_row (lut : ℤ → ℚ) (hs : LutStep lut) (x t : ℤ) :
    |_displacement lut (8 * x) (t + 1) - _displacement lut (8 * x) t| ≤ 1
    ∧ ∀ (srcPtr dstPtr : ℤ) (v : ℤ → ℤ) (r : ℤ),
        (r < dstPtr + colRow x - 1 ∨ dstPtr + colRow x + stripRows + 1 ≤ r) →
        copyRows v (srcPtr + colRow x) (dstPtr + colRow x + d_disp lut t x)
          copyRowsCount.toNat r = v r := by
  have hd : |d_disp lut t x| ≤ 1 := abs_d_disp_le_one lut hs t x
  constructor
  · exact hd
  · intro srcPtr dstPtr v r hr
    apply copyRows_outside
    rw [copyRowsCount_toNat]
    rw [stripRows_eq] at hr
    rw [abs_le] at hd
    push_cast
    omega

/-- Witness for C10 at the zero lookup table and `x = 2`, `t = 7`, evaluated
at a row below the window. -/
theorem C10_witness : LutStep lut0 ∧
    (|_displacement lut0 (8 * 2) (7 + 1) - _displacement lut0 (8 * 2) 7| ≤ 1
    ∧ ∀ (srcPtr dstPtr : ℤ) (v : ℤ → ℤ) (r : ℤ),
        (r < dstPtr + colRow 2 - 1 ∨ dstPtr + colRow 2 + stripRows + 1 ≤ r) →
        copyRows v (srcPtr + colRow 2) (dstPtr + colRow 2 + d_disp lut0 7 2)
          copyRowsCount.toNat r = v r) :=
  ⟨fun _ => by norm_num [lut0],
    C10_delta_at_most_one_row lut0 (fun _ => by norm_num [lut0]) 2 7⟩

/-! ### Claims about the frame counter -/

/-- C7: the frame counter starts at zero on creation, `update()` increments
it by exactly one, and nothing else mutates it, so after `N` calls to
`update()` — in particular `N = 256` — it equals `N`. -/
theorem C7_frame_counter (lut : ℤ → ℚ) : ∀ (img : Image) (v0 : ℤ → ℤ),
    (create lut img v0)._current_frame = 0
    ∧ (∀ s : FlagsBg, (update lut s)._current_frame = s._current_frame + 1)
    ∧ ∀ N : ℕ, ((update lut)^[N] (create lut img v0))._current_frame = N := by
  intro img v0
  refine ⟨rfl, fun s => rfl, ?_⟩
  intro N
  induction N with
  | zero => rfl
  | succ N ih =>
    rw [Function.iterate_succ_apply']
    have hstep : ∀ s : FlagsBg, (update lut s)._current_frame =
        s._current_frame + 1 := fun s => rfl
    rw [hstep, ih]
    push_cast
    ring

/-- C9: `set_bg_item` never changes the frame counter; consequently over any
interleaving of `update` and `set_bg_item` calls the frame counter advances by
exactly the number of `update` calls, so the parity-flip cadence is
undisturbed by image swaps. -/
theorem C9_swap_preserves_frame (lut : ℤ → ℚ) :
    (∀ (img : Image) (s : FlagsBg),
      (set_bg_item lut img s)._current_frame = s._current_frame)
    ∧ ∀ (ops : List Op) (s : FlagsBg),
        (ops.foldl (runOp lut) s)._current_frame =
          s._current_frame + (ops.countP Op.isUpd : ℤ) := by
  refine ⟨fun img s => rfl, ?_⟩
  intro ops
  induction ops with
  | nil =>
    intro s
    simp [List.countP_nil]
  | cons op ops ih =>
    intro s
    rw [List.foldl_cons, ih (runOp lut s op)]
    cases op with
    | upd =>
      have h1 : (runOp lut s Op.upd)._current_frame = s._current_frame + 1 := rfl
      rw [h1, List.countP_cons]
      simp [Op.isUpd]
      ring
    | setImg img =>
      have h1 : (runOp lut s (Op.setImg img))._current_frame =
          s._current_frame := rfl
      rw [h1, List.countP_cons]
      simp [Op.isUpd]

/-! ### Behaviour of the strip transfer -/

/-- Rows outside the written strip are untouched by the strip copy. -/
theorem stripCopy_outside (tiles : ℤ → ℤ → ℤ) (cells : ℤ → ℤ)
    (mapBase dest num_tiles : ℤ) (v : ℤ → ℤ) (r : ℤ)
    (h : r < dest ∨ dest + 8 * num_tiles ≤ r) :
    copy_vertical_tile_strip_8bpp tiles cells mapBase dest num_tiles v r = v r := by
  unfold copy_vertical_tile_strip_8bpp
  rw [if_neg]
  omega

/-- A row in no processed column's transfer window is untouched by the
transfer loop. -/
theorem transferCols_outside (lut : ℤ → ℚ) (f : ℤ) (img : Image)
    (destBase : ℤ) (v : ℤ → ℤ) (n : ℕ) (r : ℤ)
    (h : ∀ x : ℕ, x < n →
      r < destBase + colRow x + 2 * tile_rows + _displacement lut (8 * x) f ∨
      destBase + colRow x + 2 * tile_rows + _displacement lut (8 * x) f +
        8 * data.flag_height_tiles ≤ r) :
    transferCols lut f img destBase v n r = v r := by
  induction n with
  | zero => rfl
  | succ n ih =>
    simp only [transferCols]
    rw [stripCopy_outside _ _ _ _ _ _ _ (h n (Nat.lt_succ_self n))]
    exact ih fun x hx => h x (Nat.lt_succ_of_lt hx)

/-- A row in column `x`'s transfer window and in no later column's window ends
up holding the image tile row the strip copy gathers for it. -/
theorem transferCols_value (lut : ℤ → ℚ) (f : ℤ) (img : Image)
    (destBase : ℤ) (v : ℤ → ℤ) (n x : ℕ) (r : ℤ)
    (hxn : x < n)
    (hin1 : destBase + colRow x + 2 * tile_rows + _displacement lut (8 * x) f ≤ r)
    (hin2 : r < destBase + colRow x + 2 * tile_rows +
      _displacement lut (8 * x) f + 8 * data.flag_height_tiles)
    (hlater : ∀ y : ℕ, x < y → y < n →
      r < destBase + colRow y + 2 * tile_rows + _displacement lut (8 * y) f ∨
      destBase + colRow y + 2 * tile_rows + _displacement lut (8 * y) f +
        8 * data.flag_height_tiles ≤ r) :
    transferCols lut f img destBase v n r =
      img.tileRow
        (img.map (32 * data.flag_offset_y + data.flag_offset_x + x +
          32 * ((r - (destBase + colRow x + 2 * tile_rows +
            _displacement lut (8 * x) f)) / 8)))
        ((r - (destBase + colRow x + 2 * tile_rows +
          _displacement lut (8 * x) f)) % 8) := by
  induction n with
  | zero => omega
  | succ n ih =>
    by_cases hx : x = n
    · subst hx
      simp only [transferCols]
      unfold copy_vertical_tile_strip_8bpp
      rw [if_pos]
      constructor
      · exact hin1
      · exact hin2
    · have hxn' : x < n := by omega
      simp only [transferCols]
      rw [stripCopy_outside _ _ _ _ _ _ _ (hlater n (by omega) (Nat.lt_succ_self n))]
      exact ih hxn' fun y hy hyn => hlater y hy (Nat.lt_succ_of_lt hyn)

/-! ### The concrete tent lookup table satisfies the spec interface -/

/-- The tent table is bounded by one. -/
theorem lut1_bounded : LutBounded lut1 := by
  intro a
  unfold lut1
  have h1 : 0 ≤ a % 2048 := Int.emod_nonneg a (by norm_num)
  have h2 : a % 2048 < 2048 := Int.emod_lt_of_pos a (by norm_num)
  have hz : |tentZ a| ≤ 512 := by
    unfold tentZ
    rw [abs_le]
    split_ifs <;> omega
  rw [abs_div]
  have h512 : |(512 : ℚ)| = 512 := by norm_num
  rw [h512, div_le_one (by norm_num)]
  rw [← Int.cast_abs]
  exact_mod_cast hz

/-- The tent table only depends on the angle modulo 2048. -/
theorem tentZ_mod (a : ℤ) : tentZ (a % 2048) = tentZ a := by
  unfold tentZ
  rw [Int.emod_emod_of_dvd a dvd_rfl]

/-- The tent table changes by at most 32/512 = 1/16 across a sixteen-unit
angle step, wrap-around included. -/
theorem lut1_step : LutStep lut1 := by
  intro a
  unfold lut1
  rw [tentZ_mod, tentZ_mod]
  have hkey : |tentZ (a + 16) - tentZ a| ≤ 32 := by
    unfold tentZ
    rw [abs_le]
    have h1 : 0 ≤ a % 2048 := Int.emod_nonneg a (by norm_num)
    have h2 : a % 2048 < 2048 := Int.emod_lt_of_pos a (by norm_num)
    have h3 : 0 ≤ (a + 16) % 2048 := Int.emod_nonneg _ (by norm_num)
    have h4 : (a + 16) % 2048 < 2048 := Int.emod_lt_of_pos _ (by norm_num)
    have h5 : ((a + 16) % 2048 - a % 2048) % 2048 = 16 % 2048 := by
      rw [Int.sub_emod, Int.emod_emod_of_dvd _ dvd_rfl, Int.emod_emod_of_dvd _ dvd_rfl,
        ← Int.sub_emod]
      have : a + 16 - a = 16 := by ring
      rw [this]
    have h6 : (a + 16) % 2048 = a % 2048 + 16 ∨
        (a + 16) % 2048 = a % 2048 + 16 - 2048 := by omega
    split_ifs <;> omega
  have hdiv : (tentZ (a + 16) : ℚ) / 512 - (tentZ a : ℚ) / 512 =
      ((tentZ (a + 16) - tentZ a : ℤ) : ℚ) / 512 := by
    push_cast
    ring
  rw [hdiv, abs_div]
  have h512 : |(512 : ℚ)| = 512 := by norm_num
  rw [h512, div_le_iff₀ (by norm_num)]
  have : ((32 : ℤ) : ℚ) = 32 := by norm_num
  calc |((tentZ (a + 16) - tentZ a : ℤ) : ℚ)| = ((|tentZ (a + 16) - tentZ a| : ℤ) : ℚ) := by
        rw [Int.cast_abs]
    _ ≤ ((32 : ℤ) : ℚ) := by exact_mod_cast hkey
    _ = 1 / 16 * 512 := by norm_num

/-! ### Concrete displacement values -/

/-- The zero lookup table gives zero displacement. -/
theorem displacement_lut0 (x t : ℤ) : _displacement lut0 x t = 0 := by
  unfold _displacement lut0
  norm_num

/-- The zero lookup table gives zero per-tick delta. -/
theorem d_disp_lut0 (t x : ℤ) : d_disp lut0 t x = 0 := by
  unfold d_disp
  rw [displacement_lut0, displacement_lut0]
  ring

/-- Evaluate one tent-table displacement from the angle's tent value. -/
theorem displacement_lut1_eval (x t angle z : ℤ) (val : ℤ)
    (hangle : (16 * (x - t)) % 2048 = angle)
    (hz : tentZ angle = z)
    (hval : round ((4 : ℚ) * ((z : ℚ) / 512)) = val) :
    _displacement lut1 x t = val := by
  unfold _displacement
  rw [multiplier_eq, land_2047_eq_emod, hangle]
  unfold lut1
  rw [hz, amplitude_eq]
  have h4 : ((4 : ℤ) : ℚ) = 4 := by norm_num
  rw [h4]
  exact hval

/-- Tent displacement of column 0 at tick 5 is 3. -/
theorem disp_lut1_0_5 : _displacement lut1 0 5 = 3 := by
  exact displacement_lut1_eval 0 5 1968 432 3 (by decide) (by decide)
    (by norm_num [round_eq, Int.floor_eq_iff])

/-- Tent displacement of column 0 at tick 4 is 4. -/
theorem disp_lut1_0_4 : _displacement lut1 0 4 = 4 := by
  exact displacement_lut1_eval 0 4 1984 448 4 (by decide) (by decide)
    (by norm_num [round_eq, Int.floor_eq_iff])

/-- Tent displacement of column 8 at tick 5 is -3. -/
theorem disp_lut1_8_5 : _displacement lut1 64 5 = -3 := by
  exact displacement_lut1_eval 64 5 944 (-432) (-3) (by decide) (by decide)
    (by norm_num [round_eq, Int.floor_eq_iff])

/-- Tent displacement of column 8 at tick 4 is -3. -/
theorem disp_lut1_8_4 : _displacement lut1 64 4 = -3 := by
  exact displacement_lut1_eval 64 4 960 (-448) (-3) (by decide) (by decide)
    (by norm_num [round_eq, Int.floor_eq_iff])

/-- Tent displacement of column 9 at tick 5 is -4. -/
theorem disp_lut1_9_5 : _displacement lut1 72 5 = -4 := by
  exact displacement_lut1_eval 72 5 1072 (-464) (-4) (by decide) (by decide)
    (by norm_num [round_eq, Int.floor_eq_iff])

/-- Tent displacement of column 9 at tick 4 is -3. -/
theorem disp_lut1_9_4 : _displacement lut1 72 4 = -3 := by
  exact displacement_lut1_eval 72 4 1088 (-448) (-3) (by decide) (by decide)
    (by norm_num [round_eq, Int.floor_eq_iff])

/-- Tent displacement of column 0 at tick 0 is 4. -/
theorem disp_lut1_0_0 : _displacement lut1 0 0 = 4 := by
  exact displacement_lut1_eval 0 0 0 512 4 (by decide) (by decide)
    (by norm_num [round_eq, Int.floor_eq_iff])

/-- Under the tent table, at tick 4 column 0's delta is -1. -/
theorem d_disp_lut1_4_0 : d_disp lut1 4 0 = -1 := by
  unfold d_disp
  norm_num [disp_lut1_0_5, disp_lut1_0_4]

/-- Under the tent table, at tick 4 column 8's delta is 0. -/
theorem d_disp_lut1_4_8 : d_disp lut1 4 8 = 0 := by
  unfold d_disp
  norm_num [disp_lut1_8_5, disp_lut1_8_4]

/-- Under the tent table, at tick 4 column 9's delta is -1. -/
theorem d_disp_lut1_4_9 : d_disp lut1 4 9 = -1 := by
  unfold d_disp
  norm_num [disp_lut1_9_5, disp_lut1_9_4]

/-! ### Claims about the transfer (`load`) path -/

/-- C8: `_transfer` writes, for every column `x` and every strip row
`ρ ∈ [0, 128)`, the image tile row gathered through the map (row-major, stride
32, at cell `32 * flag_offset_y + flag_offset_x + x + 32 * (ρ / 8)`) to the
column strip position shifted by exactly `_displacement(8x, current_frame)`
eight-byte rows (a row-granular pointer offset from the strip's first
non-padding row), and afterwards the palette holds the image's colors. -/
theorem C8_transfer_offsets (lut : ℤ → ℚ) (hb : LutBounded lut) (s : FlagsBg)
    (x ρ : ℤ) (hx1 : 0 ≤ x) (hx2 : x < data.flag_width_tiles)
    (hρ1 : 0 ≤ ρ) (hρ2 : ρ < 8 * data.flag_height_tiles) :
    (_transfer lut s).vram
        (slotBaseRow (Int.land s._current_frame 1) + colRow x + 2 * tile_rows +
          _displacement lut (8 * x) s._current_frame + ρ)
      = s._bg_item.tileRow
          (s._bg_item.map (32 * data.flag_offset_y + data.flag_offset_x + x +
            32 * (ρ / 8)))
          (ρ % 8)
    ∧ (_transfer lut s).palette = s._bg_item.palette := by
  constructor
  · have hv : (_transfer lut s).vram =
        transferCols lut s._current_frame s._bg_item
          (slotBaseRow (Int.land s._current_frame 1)) s.vram
          data.flag_width_tiles.toNat := rfl
    rw [hv, flag_width_tiles_toNat]
    have hX : ((x.toNat : ℤ)) = x := Int.toNat_of_nonneg hx1
    have hXlt : x.toNat < 24 := by
      rw [flag_width_tiles_eq] at hx2
      omega
    rw [flag_height_tiles_eq] at hρ2
    have hres := transferCols_value lut s._current_frame s._bg_item
      (slotBaseRow (Int.land s._current_frame 1)) s.vram 24 x.toNat
      (slotBaseRow (Int.land s._current_frame 1) + colRow x + 2 * tile_rows +
        _displacement lut (8 * x) s._current_frame + ρ)
      hXlt (by rw [hX]; omega)
      (by rw [hX]; simp only [flag_height_tiles_eq]; omega)
      ?hlater
    · rw [hres, hX]
      have hrho : slotBaseRow (Int.land s._current_frame 1) + colRow x +
          2 * tile_rows + _displacement lut (8 * x) s._current_frame + ρ -
          (slotBaseRow (Int.land s._current_frame 1) + colRow x + 2 * tile_rows +
            _displacement lut (8 * x) s._current_frame) = ρ := by ring
      rw [hrho]
    · intro y hy1 hy2
      have hdy := abs_displacement_le lut hb (8 * y) s._current_frame
      have hdx := abs_displacement_le lut hb (8 * x) s._current_frame
      rw [abs_le] at hdy hdx
      simp only [colRow_eq, tile_rows_eq, flag_height_tiles_eq]
      left
      omega
  · rfl

/-- Witness for C8 at the zero lookup table, the identity-marker image, the
frame 0 state, column 0, strip row 0. -/
theorem C8_witness : LutBounded lut0 ∧
    ((_transfer lut0 s0).vram
        (slotBaseRow (Int.land s0._current_frame 1) + colRow 0 + 2 * tile_rows +
          _displacement lut0 (8 * 0) s0._current_frame + 0)
      = s0._bg_item.tileRow
          (s0._bg_item.map (32 * data.flag_offset_y + data.flag_offset_x + 0 +
            32 * (0 / 8)))
          (0 % 8)
    ∧ (_transfer lut0 s0).palette = s0._bg_item.palette) :=
  ⟨fun _ => by norm_num [lut0],
    C8_transfer_offsets lut0 (fun _ => by norm_num [lut0]) s0 0 0
      (by norm_num) (by decide) (by norm_num) (by decide)⟩

/-- C3 (amended): `set_bg_item` updates the active-image reference, leaves the
frame counter alone, and loads the new image's strips into slot
`current_frame & 1` — the slot the *next* `update()` will read as its source
(equivalently, the slot the most recent `update()` wrote) — touching no VRAM
row outside that slot.  The claim's stated target `(current_frame & 1) ^ 1` is
the *other* slot; see the counterexample. -/
theorem C3_swap_loads_parity_slot (lut : ℤ → ℚ) (hb : LutBounded lut)
    (img : Image) (s : FlagsBg) :
    (set_bg_item lut img s)._bg_item = img
    ∧ (set_bg_item lut img s)._current_frame = s._current_frame
    ∧ ∀ r : ℤ,
        (r < slotBaseRow (Int.land s._current_frame 1) ∨
          slotBaseRow (Int.land s._current_frame 1) + slotRows ≤ r) →
        (set_bg_item lut img s).vram r = s.vram r := by
  refine ⟨rfl, rfl, ?_⟩
  intro r hr
  have hv : (set_bg_item lut img s).vram =
      transferCols lut s._current_frame img
        (slotBaseRow (Int.land s._current_frame 1)) s.vram
        data.flag_width_tiles.toNat := rfl
  rw [hv, flag_width_tiles_toNat]
  apply transferCols_outside
  intro x hx
  have hdx := abs_displacement_le lut hb (8 * x) s._current_frame
  rw [abs_le] at hdx
  simp only [colRow_eq, tile_rows_eq, flag_height_tiles_eq]
  rw [slotRows_eq] at hr
  have hxlt : (x : ℤ) < 24 := by exact_mod_cast hx
  omega

/-- Witness for C3's amended statement at the zero lookup table, the marker
image and the frame 0 state, with the untouched row instantiated at `r = 0`
(below the written slot). -/
theorem C3_witness : LutBounded lut0 ∧
    ((set_bg_item lut0 img0 s0)._bg_item = img0
    ∧ (set_bg_item lut0 img0 s0)._current_frame = s0._current_frame
    ∧ ∀ r : ℤ,
        (r < slotBaseRow (Int.land s0._current_frame 1) ∨
          slotBaseRow (Int.land s0._current_frame 1) + slotRows ≤ r) →
        (set_bg_item lut0 img0 s0).vram r = s0.vram r) :=
  ⟨fun _ => by norm_num [lut0],
    C3_swap_loads_parity_slot lut0 (fun _ => by norm_num [lut0]) img0 s0⟩

/-- Counterexample to C3 as stated: with the tent table (which satisfies the
spec's sine interface), the marker image, and a frame counter of 0,
`set_bg_item` changes VRAM row 20 — a row *below* slot
`(current_frame & 1) ^ 1 = 1` (which starts at row 3464), inside slot 0.  So
the load does not target the slot `(current_frame & 1) ^ 1`; it targets slot
`current_frame & 1`. -/
theorem C3_counterexample : LutBounded lut1 ∧ LutStep lut1 ∧
    (20 : ℤ) < slotBaseRow (Int.xor (Int.land s0._current_frame 1) 1) ∧
    (set_bg_item lut1 img0 s0).vram 20 ≠ s0.vram 20 := by
  refine ⟨lut1_bounded, lut1_step, by decide, ?_⟩
  have hv : (set_bg_item lut1 img0 s0).vram =
      transferCols lut1 0 img0 (slotBaseRow (Int.land 0 1)) vId
        data.flag_width_tiles.toNat := rfl
  rw [hv, flag_width_tiles_toNat]
  have hbase : slotBaseRow (Int.land 0 1) = 8 := by decide
  rw [hbase]
  have hval := transferCols_value lut1 0 img0 8 vId 24 0 20
    (by norm_num)
    (by simp only [Nat.cast_zero, mul_zero, colRow_eq, tile_rows_eq];
        rw [disp_lut1_0_0]; norm_num)
    (by simp only [Nat.cast_zero, mul_zero, colRow_eq, tile_rows_eq,
          flag_height_tiles_eq];
        rw [disp_lut1_0_0]; norm_num)
    ?hlater
  · rw [hval]
    simp only [Nat.cast_zero, mul_zero, colRow_eq, tile_rows_eq,
      flag_offset_x_eq, flag_offset_y_eq]
    rw [disp_lut1_0_0]
    norm_num
    decide
  · intro y hy1 hy2
    have hdy := abs_displacement_le lut1 lut1_bounded (8 * y) 0
    rw [abs_le] at hdy
    simp only [colRow_eq, tile_rows_eq, flag_height_tiles_eq]
    have hy1' : 1 ≤ (y : ℤ) := by exact_mod_cast hy1
    left
    omega

/-! ### Claims about the update path -/

/-- C4 (amended): under the spec's step bound, `update()` leaves every row of
the active (source) slot — slot `current_frame & 1` — unchanged, *except
possibly the single row bordering the destination slot*: the row just below
the destination slot (overwritten by column 0's copy when its delta is `-1`)
or the row just past the destination slot's end (overwritten by column 23's
copy when its delta is `+1`).  Exactly one of those two border rows lies
inside the source slot; see the counterexample for a frame where it is in
fact overwritten. -/
theorem C4_active_slot_preserved (lut : ℤ → ℚ) (hs : LutStep lut) (s : FlagsBg)
    (r : ℤ)
    (h1 : slotBaseRow (Int.land s._current_frame 1) ≤ r)
    (h2 : r < slotBaseRow (Int.land s._current_frame 1) + slotRows)
    (h3 : r ≠ slotBaseRow (Int.xor (Int.land s._current_frame 1) 1) - 1)
    (h4 : r ≠ slotBaseRow (Int.xor (Int.land s._current_frame 1) 1) + slotRows) :
    (update lut s).vram r = s.vram r := by
  have hv : (update lut s).vram =
      updateCols lut s._current_frame (slotBaseRow (Int.land s._current_frame 1))
        (slotBaseRow (Int.xor (Int.land s._current_frame 1) 1)) s.vram
        data.flag_width_tiles.toNat := rfl
  rw [hv, flag_width_tiles_toNat]
  have hpar : Int.land s._current_frame 1 = 0 ∨ Int.land s._current_frame 1 = 1 := by
    rw [land_1_eq_emod]
    omega
  apply updateCols_outside
  intro x hx
  have hdx := abs_d_disp_le_one lut hs s._current_frame x
  rw [abs_le] at hdx
  rcases hpar with hp | hp
  · have hxor : Int.xor (Int.land s._current_frame 1) 1 = 1 := by rw [hp]; decide
    rw [hxor] at h3 h4 ⊢
    rw [hp] at h1 h2
    simp only [slotBaseRow_eq, slotRows_eq, colRow_eq, copyRowsCount_eq]
      at h1 h2 h3 h4 ⊢
    omega
  · have hxor : Int.xor (Int.land s._current_frame 1) 1 = 0 := by rw [hp]; decide
    rw [hxor] at h3 h4 ⊢
    rw [hp] at h1 h2
    simp only [slotBaseRow_eq, slotRows_eq, colRow_eq, copyRowsCount_eq]
      at h1 h2 h3 h4 ⊢
    omega

/-- Witness for C4's amended statement: zero lookup table, frame 0 state,
row 100 of the source slot. -/
theorem C4_witness : LutStep lut0 ∧ (update lut0 s0).vram 100 = s0.vram 100 :=
  ⟨fun _ => by norm_num [lut0],
    C4_active_slot_preserved lut0 (fun _ => by norm_num [lut0]) s0 100
      (by decide) (by decide) (by decide) (by decide)⟩

/-- Counterexample to C4 as stated: with the tent table (inside the spec's
sine interface) at frame 4 — source slot 0, rows `[8, 3464)` — the call
`update()` overwrites row 3463, the source slot's last row (column 23's bottom
padding row), because destination column 0's delta is `-1` and its copy starts
one row *before* the destination slot, which immediately follows the source
slot.  So the active slot is NOT left bit-identical. -/
theorem C4_counterexample : LutBounded lut1 ∧ LutStep lut1 ∧
    slotBaseRow (Int.land s4._current_frame 1) ≤ 3463 ∧
    (3463 : ℤ) < slotBaseRow (Int.land s4._current_frame 1) + slotRows ∧
    (update lut1 s4).vram 3463 ≠ s4.vram 3463 := by
  refine ⟨lut1_bounded, lut1_step, by decide, by decide, ?_⟩
  have hv : (update lut1 s4).vram =
      updateCols lut1 4 (slotBaseRow (Int.land (4 : ℤ) 1))
        (slotBaseRow (Int.xor (Int.land (4 : ℤ) 1) 1)) vId
        data.flag_width_tiles.toNat := rfl
  have hsrc : slotBaseRow (Int.land (4 : ℤ) 1) = 8 := by decide
  have hdst : slotBaseRow (Int.xor (Int.land (4 : ℤ) 1) 1) = 3464 := by decide
  rw [hv, flag_width_tiles_toNat, hsrc, hdst]
  have hval := updateCols_value lut1 4 8 3464 vId 24 0 3463 (by norm_num)
    (by simp only [Nat.cast_zero, colRow_eq, mul_zero]
        rw [d_disp_lut1_4_0]; norm_num)
    (by simp only [Nat.cast_zero, colRow_eq, mul_zero, copyRowsCount_eq]
        rw [d_disp_lut1_4_0]; norm_num)
    ?hlater ?hdisj
  · rw [hval]
    simp only [updateCols, Nat.cast_zero, colRow_eq, mul_zero]
    rw [d_disp_lut1_4_0]
    norm_num
    decide
  · intro y hy1 hy2
    have hdy := abs_d_disp_le_one lut1 lut1_step 4 y
    rw [abs_le] at hdy
    simp only [colRow_eq, copyRowsCount_eq]
    have hy1' : 1 ≤ (y : ℤ) := by exact_mod_cast hy1
    left
    omega
  · simp only [Nat.cast_zero, colRow_eq, mul_zero, copyRowsCount_eq]
    rw [d_disp_lut1_4_0]
    left
    norm_num

/-- Shared core for the delta-consistency analysis of `update`: in either
parity geometry (source slot at row 8 and destination at row 3464, or the
reverse), the destination column `X` strip row `r` ends up holding the source
column `X` strip row `r - delta(X)`, provided that row is in the window the
column copy writes, no later column's window covers it (per C10's bound only
column `X + 1` with delta `-1` could, at `r = 143`), and — in the
source-at-8 geometry — it is not the one row whose source was dirtied by
column 0's spill (column 23 reading its strip row 143 after column 0 wrote
row 3463). -/
theorem updateCols_shift_core (lut : ℤ → ℚ) (f srcPtr dstPtr : ℤ) (v : ℤ → ℤ)
    (hδ : ∀ y : ℤ, |d_disp lut f y| ≤ 1)
    (hgeom : (srcPtr = 8 ∧ dstPtr = 3464) ∨ (srcPtr = 3464 ∧ dstPtr = 8))
    (X : ℕ) (r : ℤ) (hX : X < 24)
    (hr1 : 0 ≤ r) (hr2 : r < 144)
    (hq1 : 0 ≤ r - d_disp lut f X) (hq2 : r - d_disp lut f X < 144)
    (hA : (X : ℤ) + 1 < 24 → ¬(r = 143 ∧ d_disp lut f ((X : ℤ) + 1) = -1))
    (hB : ¬((X : ℤ) = 23 ∧ r - d_disp lut f X = 143 ∧ srcPtr = 8 ∧
      d_disp lut f 0 = -1)) :
    updateCols lut f srcPtr dstPtr v 24 (dstPtr + colRow X + r) =
      v (srcPtr + colRow X + (r - d_disp lut f X)) := by
  have hd : ∀ y : ℤ, -1 ≤ d_disp lut f y ∧ d_disp lut f y ≤ 1 :=
    fun y => abs_le.mp (hδ y)
  rw [updateCols_value lut f srcPtr dstPtr v 24 X (dstPtr + colRow X + r) hX
    (by omega) (by rw [copyRowsCount_eq]; omega) ?hlater ?hdisj]
  · have hidx : srcPtr + colRow X +
        (dstPtr + colRow X + r - (dstPtr + colRow X + d_disp lut f X)) =
        srcPtr + colRow X + (r - d_disp lut f X) := by ring
    rw [hidx]
    rw [updateCols_outside lut f srcPtr dstPtr v X _ ?hbefore]
    case hbefore =>
      intro y hy
      have hdy := hd y
      have hd0 := hd 0
      rcases hgeom with ⟨hsp, hdp⟩ | ⟨hsp, hdp⟩
      · subst hsp hdp
        rcases Nat.eq_zero_or_pos y with hy0 | hy0
        · subst hy0
          simp only [Nat.cast_zero, colRow_eq, mul_zero, copyRowsCount_eq]
          simp only [colRow_eq] at hB ⊢
          have hXlt : (X : ℤ) ≤ 23 := by exact_mod_cast Nat.lt_succ_iff.mp hX
          have hXnn : (0 : ℤ) ≤ (X : ℤ) := Int.natCast_nonneg X
          by_cases hend : (X : ℤ) = 23 ∧ r - d_disp lut f X = 143
          · have hne : ¬(d_disp lut f 0 = -1) := by
              intro hd0eq
              exact hB ⟨hend.1, hend.2, trivial, hd0eq⟩
            left
            omega
          · rw [not_and_or] at hend
            rcases hend with hend | hend
            · left
              omega
            · left
              omega
        · simp only [colRow_eq, copyRowsCount_eq]
          have hy1 : 1 ≤ (y : ℤ) := by exact_mod_cast hy0
          have hXlt : (X : ℤ) ≤ 23 := by exact_mod_cast Nat.lt_succ_iff.mp hX
          left
          omega
      · subst hsp hdp
        simp only [colRow_eq, copyRowsCount_eq]
        have hyX : (y : ℤ) < (X : ℤ) := by exact_mod_cast hy
        have hXlt : (X : ℤ) ≤ 23 := by exact_mod_cast Nat.lt_succ_iff.mp hX
        have hynn : (0 : ℤ) ≤ (y : ℤ) := Int.natCast_nonneg y
        right
        omega
  case hlater =>
    intro y hy1 hy2
    have hdy := hd y
    by_cases hyx : y = X + 1
    · subst hyx
      have hy1' : (X : ℤ) + 1 < 24 := by exact_mod_cast hy2
      have hdX1 := hd ((X : ℤ) + 1)
      have hAs := hA hy1'
      simp only [Nat.cast_add, Nat.cast_one, colRow_eq, copyRowsCount_eq]
      rw [not_and_or] at hAs
      rcases hAs with hAs | hAs
      · left
        omega
      · left
        omega
    · have hy2' : (X : ℤ) + 2 ≤ (y : ℤ) := by
        have : X + 2 ≤ y := by omega
        exact_mod_cast this
      simp only [colRow_eq, copyRowsCount_eq]
      left
      omega
  case hdisj =>
    have hdX := hd X
    rcases hgeom with ⟨hsp, hdp⟩ | ⟨hsp, hdp⟩
    · subst hsp hdp
      rw [copyRowsCount_eq]
      left
      omega
    · subst hsp hdp
      rw [copyRowsCount_eq]
      right
      omega

/-- C1 (amended): under the spec's step bound, `update()` at frame `t` gives
destination-slot column `x` the content of source-slot column `x` shifted by
exactly `delta = displacement(8x, t+1) - displacement(8x, t)` rows: destination
strip row `r` holds source strip row `r - delta` for every `r` with
`r - delta ∈ [0, 144)` — *except* (i) strip row 143 when column `x + 1`'s
delta is `-1`, which that column's copy overwrites afterwards, and (ii) for
`x = 23` with `r - delta = 143` on even frames when column 0's delta is `-1`,
where column 0's spill dirties the source row before column 23 reads it.  The
counterexample shows exception (i) is real. -/
theorem C1_update_shifts_columns (lut : ℤ → ℚ) (hs : LutStep lut) (s : FlagsBg)
    (x r : ℤ)
    (hx1 : 0 ≤ x) (hx2 : x < data.flag_width_tiles)
    (hr1 : 0 ≤ r) (hr2 : r < stripRows)
    (hq1 : 0 ≤ r - d_disp lut s._current_frame x)
    (hq2 : r - d_disp lut s._current_frame x < stripRows)
    (hA : x + 1 < data.flag_width_tiles →
      ¬(r = stripRows - 1 ∧ d_disp lut s._current_frame (x + 1) = -1))
    (hB : ¬(x = data.flag_width_tiles - 1 ∧
        r - d_disp lut s._current_frame x = stripRows - 1 ∧
        Int.land s._current_frame 1 = 0 ∧ d_disp lut s._current_frame 0 = -1)) :
    (update lut s).vram
        (slotBaseRow (Int.xor (Int.land s._current_frame 1) 1) + colRow x + r)
      = s.vram (slotBaseRow (Int.land s._current_frame 1) + colRow x +
          (r - d_disp lut s._current_frame x)) := by
  have hv : (update lut s).vram = updateCols lut s._current_frame
      (slotBaseRow (Int.land s._current_frame 1))
      (slotBaseRow (Int.xor (Int.land s._current_frame 1) 1)) s.vram
      data.flag_width_tiles.toNat := rfl
  rw [hv, flag_width_tiles_toNat]
  have hX : ((x.toNat : ℤ)) = x := Int.toNat_of_nonneg hx1
  have hXlt : x.toNat < 24 := by
    rw [flag_width_tiles_eq] at hx2
    omega
  rw [flag_width_tiles_eq] at hA hB
  rw [stripRows_eq] at hr2 hq2 hA hB
  have hδ : ∀ y : ℤ, |d_disp lut s._current_frame y| ≤ 1 :=
    fun y => abs_d_disp_le_one lut hs s._current_frame y
  have hpar : Int.land s._current_frame 1 = 0 ∨ Int.land s._current_frame 1 = 1 := by
    rw [land_1_eq_emod]
    omega
  rcases hpar with hp | hp
  · have hxor : Int.xor (Int.land s._current_frame 1) 1 = 1 := by rw [hp]; decide
    rw [hxor, hp]
    rw [show slotBaseRow (1 : ℤ) = 3464 from by decide,
      show slotBaseRow (0 : ℤ) = 8 from by decide]
    have hcore := updateCols_shift_core lut s._current_frame 8 3464 s.vram hδ
      (Or.inl ⟨rfl, rfl⟩) x.toNat r hXlt hr1 hr2
      (by rw [hX]; omega) (by rw [hX]; omega)
      (by rw [hX]
          intro hlt hcontra
          exact hA (by omega) ⟨by omega, hcontra.2⟩)
      (by rw [hX]
          intro hcontra
          exact hB ⟨by omega, by omega, hp, hcontra.2.2.2⟩)
    rw [hX] at hcore
    exact hcore
  · have hxor : Int.xor (Int.land s._current_frame 1) 1 = 0 := by rw [hp]; decide
    rw [hxor, hp]
    rw [show slotBaseRow (0 : ℤ) = 8 from by decide,
      show slotBaseRow (1 : ℤ) = 3464 from by decide]
    have hcore := updateCols_shift_core lut s._current_frame 3464 8 s.vram hδ
      (Or.inr ⟨rfl, rfl⟩) x.toNat r hXlt hr1 hr2
      (by rw [hX]; omega) (by rw [hX]; omega)
      (by rw [hX]
          intro hlt hcontra
          exact hA (by omega) ⟨by omega, hcontra.2⟩)
      (by intro hcontra
          exact absurd hcontra.2.2.1 (by norm_num))
    rw [hX] at hcore
    exact hcore

/-- Witness for C1's amended statement: zero lookup table, frame 0 state,
column 0, strip row 0. -/
theorem C1_witness : LutStep lut0 ∧
    (update lut0 s0).vram
        (slotBaseRow (Int.xor (Int.land s0._current_frame 1) 1) + colRow 0 + 0)
      = s0.vram (slotBaseRow (Int.land s0._current_frame 1) + colRow 0 +
          (0 - d_disp lut0 s0._current_frame 0)) :=
  ⟨fun _ => by norm_num [lut0],
    C1_update_shifts_columns lut0 (fun _ => by norm_num [lut0]) s0 0 0
      (by norm_num) (by decide) (by norm_num) (by decide)
      (by rw [d_disp_lut0]; norm_num) (by rw [d_disp_lut0]; decide)
      (by intro hlt h
          rw [d_disp_lut0] at h
          exact absurd h.2 (by norm_num))
      (by intro h
          rw [d_disp_lut0] at h
          exact absurd h.2.2.2 (by norm_num))⟩

/-- Counterexample to C1 as stated: tent table, frame 4 (source slot 0,
destination slot 1).  Column 8's delta is 0 and column 9's delta is `-1`, so
column 9's copy starts one row early and overwrites the last row of
destination column 8's strip (VRAM row 4759) with *its own* first source row
(source row 1304) — not with source column 8's row 143 (source row 1303,
whose content marker is 1303).  Destination strip row 143 of column 8 is
inside the claimed range (`143 - delta = 143 ∈ [0, 144)`), yet its final
content differs from the claimed shifted copy. -/
theorem C1_counterexample : LutBounded lut1 ∧ LutStep lut1 ∧
    (0 : ℤ) ≤ 143 - d_disp lut1 s4._current_frame 8 ∧
    143 - d_disp lut1 s4._current_frame 8 < stripRows ∧
    (update lut1 s4).vram
        (slotBaseRow (Int.xor (Int.land s4._current_frame 1) 1) + colRow 8 + 143)
      ≠ s4.vram (slotBaseRow (Int.land s4._current_frame 1) + colRow 8 +
          (143 - d_disp lut1 s4._current_frame 8)) := by
  have hf : s4._current_frame = 4 := rfl
  rw [hf]
  refine ⟨lut1_bounded, lut1_step, ?_, ?_, ?_⟩
  · rw [d_disp_lut1_4_8]
    norm_num
  · rw [d_disp_lut1_4_8, stripRows_eq]
    norm_num
  · have hsrc : slotBaseRow (Int.land (4 : ℤ) 1) = 8 := by decide
    have hdst : slotBaseRow (Int.xor (Int.land (4 : ℤ) 1) 1) = 3464 := by decide
    rw [hsrc, hdst, d_disp_lut1_4_8, colRow_eq]
    have hv : (update lut1 s4).vram =
        updateCols lut1 4 (slotBaseRow (Int.land (4 : ℤ) 1))
          (slotBaseRow (Int.xor (Int.land (4 : ℤ) 1) 1)) vId
          data.flag_width_tiles.toNat := rfl
    rw [hv, flag_width_tiles_toNat, hsrc, hdst]
    have hstep := updateCols_value lut1 4 8 3464 vId 24 9 4759 (by norm_num)
      (by simp only [Nat.cast_ofNat, colRow_eq]
          rw [d_disp_lut1_4_9]
          norm_num)
      (by simp only [Nat.cast_ofNat, colRow_eq, copyRowsCount_eq]
          rw [d_disp_lut1_4_9]
          norm_num)
      ?hlater ?hdisj
    · have haddr : (3464 : ℤ) + 144 * 8 + 143 = 4759 := by norm_num
      rw [haddr, hstep]
      simp only [Nat.cast_ofNat, colRow_eq]
      rw [d_disp_lut1_4_9]
      have hread : (8 : ℤ) + 144 * 9 + (4759 - (3464 + 144 * 9 + -1)) = 1304 := by
        norm_num
      rw [hread]
      rw [updateCols_outside lut1 4 8 3464 vId 9 1304 ?hbefore]
      case hbefore =>
        intro y hy
        have hdy := abs_d_disp_le_one lut1 lut1_step 4 y
        rw [abs_le] at hdy
        simp only [colRow_eq, copyRowsCount_eq]
        have hynn : (0 : ℤ) ≤ (y : ℤ) := Int.natCast_nonneg y
        left
        omega
      have h1303 : (8 : ℤ) + 144 * 8 + (143 - 0) = 1303 := by norm_num
      rw [h1303]
      decide
    · intro y hy1 hy2
      have hdy := abs_d_disp_le_one lut1 lut1_step 4 y
      rw [abs_le] at hdy
      simp only [colRow_eq, copyRowsCount_eq]
      have hy1' : 10 ≤ (y : ℤ) := by exact_mod_cast hy1
      left
      omega
    · simp only [Nat.cast_ofNat, colRow_eq, copyRowsCount_eq]
      rw [d_disp_lut1_4_9]
      left
      norm_num

end VWD
